import Mathlib

/-!
# Verification of the vocabulary-session core of `app.py`

Shallow embedding of the timestamp/window calculator and the session state
machine of the application, together with proofs of the specified
properties.  GUI layout, file dialogs and media playback are external
collaborators (spec §1) and are not modelled; the embedding covers the
pure data transformations and the state transitions of the handlers.

Strings are modelled as Lean `String`s (lists of characters); Python's
`str.split` with a one-character separator and `int()` (base 10, ASCII
inputs) are embedded faithfully, including `int()`'s acceptance of
surrounding blanks, a sign, leading zeros and underscores between digits.
-/

/-- ASCII digit test, as used by Python's `int()` on ASCII input. -/
def isDig (c : Char) : Bool := 48 ≤ c.toNat && c.toNat ≤ 57

/-- Numeric value of an ASCII digit character. -/
def digitVal (c : Char) : Nat := c.toNat - 48

/-- The ASCII character for a single digit (used when formatting). -/
def digitChar (n : Nat) : Char :=
  match n with
  | 0 => '0' | 1 => '1' | 2 => '2' | 3 => '3' | 4 => '4'
  | 5 => '5' | 6 => '6' | 7 => '7' | 8 => '8' | 9 => '9'
  | _ => '*'

/-- The ASCII whitespace characters stripped by Python's `int()`. -/
def isPySpace (c : Char) : Bool :=
  c.toNat = 32 || c.toNat = 9 || c.toNat = 10 || c.toNat = 13 ||
  c.toNat = 11 || c.toNat = 12

/-- Decimal digits of `n`, most significant first, with explicit fuel
(`fuel > n` suffices).  Mirrors the digit sequence printed by Python's
`f"{n:d}"` for non-negative `n`. -/
def natDigitsAux : Nat → Nat → List Char
  | 0, _ => []
  | fuel + 1, n =>
    if n < 10 then [digitChar n]
    else natDigitsAux fuel (n / 10) ++ [digitChar (n % 10)]

/-- Decimal digit string of a natural number, most significant first. -/
def natDigits (n : Nat) : List Char := natDigitsAux (n + 1) n

/-- Zero-pad on the left to width `w`: the behaviour of Python's
`f"{n:02d}"` / `f"{n:03d}"` format specifiers. -/
def padZero (w : Nat) (l : List Char) : List Char :=
  List.replicate (w - l.length) '0' ++ l

/-- `f"{n:02d}"`. -/
def fmt2 (n : Nat) : List Char := padZero 2 (natDigits n)

/-- `f"{n:03d}"`. -/
def fmt3 (n : Nat) : List Char := padZero 3 (natDigits n)

/-- Drop leading Python whitespace. -/
def stripLeft : List Char → List Char
  | [] => []
  | c :: cs => if isPySpace c then stripLeft cs else c :: cs

/-- Strip leading and trailing Python whitespace (`str.strip()` as done
inside `int()`). -/
def pyStrip (l : List Char) : List Char :=
  (stripLeft (stripLeft l).reverse).reverse

/-- Digit accumulator for `int()`: after a first digit has been read,
consume further digits, allowing a single underscore between two
digits (Python's numeric-literal underscore rule). -/
def udAux (acc : Nat) : List Char → Option Nat
  | [] => some acc
  | c :: cs =>
    if isDig c then udAux (acc * 10 + digitVal c) cs
    else if c = '_' then
      match cs with
      | [] => none
      | d :: cs' => if isDig d then udAux (acc * 10 + digitVal d) cs' else none
    else none

/-- Unsigned decimal digit string (with underscores between digits) to its
value; fails on the empty string or a non-digit lead character. -/
def parseUD : List Char → Option Nat
  | [] => none
  | c :: cs => if isDig c then udAux (digitVal c) cs else none

/-- Python's `int(s)` for base 10 on ASCII input: optional surrounding
whitespace, optional single sign, then digits (underscores permitted
between digits).  Returns `none` where Python raises `ValueError`. -/
def pyInt (l : List Char) : Option Int :=
  match pyStrip l with
  | [] => none
  | c :: cs =>
    if c = '+' then (parseUD cs).map (fun n => (n : Int))
    else if c = '-' then (parseUD cs).map (fun n => -(n : Int))
    else (parseUD (c :: cs)).map (fun n => (n : Int))

/-- Python's `str.split(sep)` for a one-character separator: splits at every
occurrence, keeping empty fields (`"".split(sep) == [""]`). -/
def splitOnChar (sep : Char) : List Char → List (List Char)
  | [] => [[]]
  | c :: cs =>
    if c = sep then [] :: splitOnChar sep cs
    else
      match splitOnChar sep cs with
      | [] => [[c]]
      | h :: t => (c :: h) :: t

/-- `timestamp_to_ms` from `app.py`: `h, m, rest = ts.split(":")`,
`s, ms = rest.split(",")`, then `(int(h)*3600 + int(m)*60 + int(s))*1000
+ int(ms)`.  `none` models the exception raised when an unpacking or an
`int()` conversion fails. -/
def timestamp_to_ms (ts : String) : Option Int :=
  match splitOnChar ':' ts.data with
  | [h, m, rest] =>
    match splitOnChar ',' rest with
    | [s, ms] =>
      match pyInt h, pyInt m, pyInt s, pyInt ms with
      | some vh, some vm, some vs, some vms =>
        some ((vh * 3600 + vm * 60 + vs) * 1000 + vms)
      | _, _, _, _ => none
    | _ => none
  | _ => none

/-- `ms_to_timestamp` from `app.py`: repeated `divmod` then
`f"{h:02d}:{m:02d}:{s:02d},{ms:03d}"`.  Python's `divmod` on non-negative
integers agrees with natural-number division; the function is modelled on
naturals (every claim concerns non-negative milliseconds). -/
def ms_to_timestamp (ms : Nat) : String :=
  let s := ms / 1000
  let msr := ms % 1000
  let m := s / 60
  let sr := s % 60
  let h := m / 60
  let mr := m % 60
  ⟨fmt2 h ++ ':' :: fmt2 mr ++ ':' :: fmt2 sr ++ ',' :: fmt3 msr⟩

/-- The canonical `HH:MM:SS,mmm` string with the given field values
(two zero-padded digits for hours, minutes, seconds; three for
milliseconds).  Every string of the exact shape arises this way from
`h < 100`, `m < 60`, `s < 60`, `ms < 1000`. -/
def mkTimestamp (h m s ms : Nat) : String :=
  ⟨fmt2 h ++ ':' :: fmt2 m ++ ':' :: fmt2 s ++ ',' :: fmt3 ms⟩

/-- Modelled from the spec: the exact `HH:MM:SS,mmm` shape — two digits,
colon, two digits, colon, two digits, comma, three digits, with the
minute and second fields below 60.  (The code has no such predicate;
this is the spec-side notion used to compare against the parser.) -/
def validTimestampStr (t : String) : Bool :=
  match t.data with
  | [h1, h2, c1, m1, m2, c2, s1, s2, c3, d1, d2, d3] =>
    isDig h1 && isDig h2 && c1 == ':' &&
    isDig m1 && isDig m2 && c2 == ':' &&
    isDig s1 && isDig s2 && c3 == ',' &&
    isDig d1 && isDig d2 && isDig d3 &&
    decide (10 * digitVal m1 + digitVal m2 < 60) &&
    decide (10 * digitVal s1 + digitVal s2 < 60)
  | _ => false

/-- The `Word` dataclass: seven string fields in source order. -/
structure Word where
  term : String
  beginTimestamp : String
  endTimestamp : String
  englishMeaning : String
  turkishMeaning : String
  sampleSentenceInEnglish : String
  sampleSentenceInTurkish : String
deriving DecidableEq, Repr, Inhabited

/-- `Word.begin_ms`: `timestamp_to_ms(self.beginTimestamp) - 1000`.
`none` models the exception on an unparsable timestamp. -/
def Word.begin_ms (w : Word) : Option Int :=
  (timestamp_to_ms w.beginTimestamp).map (fun v => v - 1000)

/-- `Word.end_ms`: `timestamp_to_ms(self.endTimestamp) + 1000`. -/
def Word.end_ms (w : Word) : Option Int :=
  (timestamp_to_ms w.endTimestamp).map (fun v => v + 1000)

/-- The position passed to `player.setPosition` by
`SessionWidget.play_segment`: `max(0, w.begin_ms())`. -/
def playStartPos (w : Word) : Option Int :=
  w.begin_ms.map (fun b => max 0 b)

/-- The stop threshold stored by `play_segment`:
`self.stop_ms = w.end_ms()`. -/
def playStopMs (w : Word) : Option Int := w.end_ms

/-- The state of a `SessionWidget` relevant to the session state machine:
the fixed word list, the current index, the response array
(`None`/`True`/`False` = unset/known/unknown) and whether the widget has
been closed by `finish`.  `exports` logs each filtered list written out
by `finish`, so "export runs exactly once" is expressible.  Rendering,
playback and file paths are external effects and are not part of the
state. -/
structure Session where
  words : List Word
  current : Nat
  responses : List (Option Bool)
  closed : Bool
  exports : List (List Word)
deriving DecidableEq, Repr

/-- A fresh session over `ws`: `self.current = 0`,
`self.responses = [None] * len(words)`. -/
def initSession (ws : List Word) : Session :=
  ⟨ws, 0, List.replicate ws.length none, false, []⟩

/-- Python's `not` on an `Optional[bool]`: `not None` and `not False` are
`True`; `not True` is `False`. -/
def pyNot : Option Bool → Bool
  | none => true
  | some b => !b

/-- The list comprehension in `SessionWidget.finish`:
`[w for idx, w in enumerate(words) if not responses[idx]]`
(walking both lists in step; they have equal length by construction). -/
def filterNotKnown : List Word → List (Option Bool) → List Word
  | [], _ => []
  | _ :: _, [] => []
  | w :: ws, r :: rs =>
    if pyNot r then w :: filterNotKnown ws rs else filterNotKnown ws rs

/-- `SessionWidget.finish`: write the filtered list and close the widget.
The file write is logged in `exports`; `self.close()` sets `closed`. -/
def Session.finish (s : Session) : Session :=
  { s with closed := true,
           exports := s.exports ++ [filterNotKnown s.words s.responses] }

/-- `SessionWidget.mark_known`: `self.responses[self.current] = True`. -/
def Session.mark_known (s : Session) : Session :=
  { s with responses := s.responses.set s.current (some true) }

/-- `SessionWidget.mark_unknown`: `self.responses[self.current] = False`. -/
def Session.mark_unknown (s : Session) : Session :=
  { s with responses := s.responses.set s.current (some false) }

/-- `SessionWidget.prev_word`: decrement `current` when positive, else do
nothing.  (`update_ui` only touches rendering and playback.) -/
def Session.prev_word (s : Session) : Session :=
  if 0 < s.current then { s with current := s.current - 1 } else s

/-- `SessionWidget.next_word`.  The comparisons are over `ℤ` because
Python's `len(self.words) - 1` is `-1` on an empty list (where the
handler falls through without effect). -/
def Session.next_word (s : Session) : Session :=
  if (s.current : Int) = (s.words.length : Int) - 1 then s.finish
  else if (s.current : Int) < (s.words.length : Int) - 1 then
    { s with current := s.current + 1 }
  else s

/-- The user events a session widget reacts to. -/
inductive Ev
  | next
  | prev
  | markKnown
  | markUnknown
deriving DecidableEq, Repr

/-- Event-level step: Qt delivers a button's `clicked` signal only while
the widget is open; `finish` calls `self.close()`, so once `closed` is
set no further events reach the handlers and the state is unchanged. -/
def step (s : Session) (e : Ev) : Session :=
  if s.closed then s
  else
    match e with
    | .next => s.next_word
    | .prev => s.prev_word
    | .markKnown => s.mark_known
    | .markUnknown => s.mark_unknown

/-- The seven field names of `Word`, in declaration order. -/
def fieldNames : List String :=
  ["term", "beginTimestamp", "endTimestamp", "englishMeaning",
   "turkishMeaning", "sampleSentenceInEnglish", "sampleSentenceInTurkish"]

/-- A parsed JSON record: key/value pairs (all values string-typed). -/
def lookupField (r : List (String × String)) (k : String) : Option String :=
  (r.find? (fun p => p.1 == k)).map (fun p => p.2)

/-- `Word(**d)`: the dataclass constructor accepts the keyword dictionary
iff every key is one of the seven fields (an unexpected keyword raises
`TypeError`) and every field is present (a missing argument raises
`TypeError`).  `none` models the raised exception. -/
def mkWord (r : List (String × String)) : Option Word :=
  if r.all (fun p => fieldNames.contains p.1) then
    match lookupField r "term", lookupField r "beginTimestamp",
      lookupField r "endTimestamp", lookupField r "englishMeaning",
      lookupField r "turkishMeaning", lookupField r "sampleSentenceInEnglish",
      lookupField r "sampleSentenceInTurkish" with
    | some a, some b, some c, some d, some e, some f, some g =>
      some ⟨a, b, c, d, e, f, g⟩
    | _, _, _, _, _, _, _ => none
  else none

/-- `words = [Word(**d) for d in data]`: builds the words in order and
fails as a whole if any record fails. -/
def mkWords : List (List (String × String)) → Option (List Word)
  | [] => some []
  | r :: rest =>
    match mkWord r, mkWords rest with
    | some w, some ws => some (w :: ws)
    | _, _ => none

/-- The pre-session application state: `UploadWidget.session` is set only
after a successful load. -/
structure UploadState where
  session : Option Session
deriving DecidableEq, Repr

/-- `UploadWidget.start` from the point where the JSON array has been
read: on any record error the exception is caught, an error dialog is
shown and the method returns with the state unchanged; otherwise the
session widget is created. -/
def start (st : UploadState) (data : List (List (String × String))) : UploadState :=
  match mkWords data with
  | none => st
  | some ws => { st with session := some (initSession ws) }

/-- The field-splitting structure of `timestamp_to_ms`: the `:`-split must
give exactly three parts and the `,`-split of the last part exactly two.
`none` is the unpacking `ValueError`. -/
def tsFieldsSplit (l : List Char) :
    Option (List Char × List Char × List Char × List Char) :=
  match splitOnChar ':' l with
  | [f1, f2, rest] =>
    match splitOnChar ',' rest with
    | [g1, g2] => some (f1, f2, g1, g2)
    | _ => none
  | _ => none

/-! ## Concrete fixtures used by the witnesses -/

/-- The word of the spec §8 scenario. -/
def wCat : Word :=
  ⟨"cat", "00:00:05,000", "00:00:06,000", "a feline", "kedi",
   "The cat sleeps.", "Kedi uyuyor."⟩

def wDog : Word :=
  ⟨"dog", "00:00:07,000", "00:00:08,000", "a canine", "köpek",
   "The dog barks.", "Köpek havlıyor."⟩

def wOwl : Word :=
  ⟨"owl", "00:00:09,000", "00:00:10,500", "a night bird", "baykuş",
   "The owl hoots.", "Baykuş öter."⟩

/-- A one-word session, as in the N=1 scenario of spec §8. -/
def sOne : Session := initSession [wCat]

/-- A three-word session at the last index with index 1 marked known and
index 2 marked unknown, as in the N=3 scenario of spec §8. -/
def sThree : Session :=
  ⟨[wCat, wDog, wOwl], 2, [none, some true, some false], false, []⟩

/-- A record carrying all seven fields plus an extra eighth one. -/
def recExtra : List (String × String) :=
  [("term", "cat"), ("beginTimestamp", "00:00:05,000"),
   ("endTimestamp", "00:00:06,000"), ("englishMeaning", "a feline"),
   ("turkishMeaning", "kedi"), ("sampleSentenceInEnglish", "The cat sleeps."),
   ("sampleSentenceInTurkish", "Kedi uyuyor."), ("note", "extra")]

/-! ## Character and digit lemmas -/

theorem isDig_digitChar {n : Nat} (h : n < 10) : isDig (digitChar n) = true := by
  interval_cases n <;> decide

theorem digitVal_digitChar {n : Nat} (h : n < 10) : digitVal (digitChar n) = n := by
  interval_cases n <;> decide

theorem isPySpace_eq_false_of_isDig {c : Char} (h : isDig c = true) :
    isPySpace c = false := by
  simp only [isDig, Bool.and_eq_true, decide_eq_true_eq] at h
  simp only [isPySpace, Bool.or_eq_false_iff, decide_eq_false_iff_not]
  omega

theorem ne_of_isDig {c d : Char} (h : isDig c = true) (hd : isDig d = false) :
    c ≠ d := by
  intro e
  rw [e, hd] at h
  exact Bool.false_ne_true h

/-! ## Digit strings: `natDigitsAux` shape and value -/

theorem udAux_cons_digit {c : Char} (h : isDig c = true) (acc : Nat)
    (l : List Char) :
    udAux acc (c :: l) = udAux (acc * 10 + digitVal c) l := by
  cases l with
  | nil => simp [udAux, h]
  | cons d cs => simp [udAux, h]

theorem natDigitsAux_all_digits :
    ∀ fuel n c, c ∈ natDigitsAux fuel n → isDig c = true := by
  intro fuel
  induction fuel with
  | zero => intro n c hc; simp [natDigitsAux] at hc
  | succ f ih =>
    intro n c hc
    by_cases h10 : n < 10
    · simp only [natDigitsAux, if_pos h10, List.mem_singleton] at hc
      exact hc ▸ isDig_digitChar h10
    · simp only [natDigitsAux, if_neg h10, List.mem_append,
        List.mem_singleton] at hc
      rcases hc with hc | hc
      · exact ih _ _ hc
      · exact hc ▸ isDig_digitChar (Nat.mod_lt _ (by omega))

theorem natDigits_all_digits {n : Nat} {c : Char} (hc : c ∈ natDigits n) :
    isDig c = true :=
  natDigitsAux_all_digits _ _ _ hc

theorem natDigitsAux_ne_nil {fuel n : Nat} (h : n < fuel) :
    natDigitsAux fuel n ≠ [] := by
  match fuel with
  | f + 1 =>
    by_cases h10 : n < 10
    · simp [natDigitsAux, if_pos h10]
    · simp [natDigitsAux, if_neg h10]

theorem udAux_natDigitsAux :
    ∀ fuel n, n < fuel → ∀ acc rest,
      udAux acc (natDigitsAux fuel n ++ rest) =
        udAux (acc * 10 ^ (natDigitsAux fuel n).length + n) rest := by
  intro fuel
  induction fuel with
  | zero => intro n h; omega
  | succ f ih =>
    intro n h acc rest
    by_cases h10 : n < 10
    · rw [natDigitsAux, if_pos h10]
      show udAux acc (digitChar n :: rest) = _
      rw [udAux_cons_digit (isDig_digitChar h10), digitVal_digitChar h10]
      simp [pow_succ]
    · rw [natDigitsAux, if_neg h10]
      rw [List.append_assoc, List.singleton_append,
        ih (n / 10) (by omega) acc (digitChar (n % 10) :: rest)]
      rw [udAux_cons_digit (isDig_digitChar (Nat.mod_lt _ (by omega))),
        digitVal_digitChar (Nat.mod_lt _ (by omega))]
      congr 1
      rw [List.length_append, List.length_singleton, pow_succ, Nat.add_mul,
        Nat.mul_assoc, Nat.add_assoc]
      congr 1
      omega

theorem udAux_natDigits (n : Nat) (acc : Nat) (rest : List Char) :
    udAux acc (natDigits n ++ rest) =
      udAux (acc * 10 ^ (natDigits n).length + n) rest :=
  udAux_natDigitsAux (n + 1) n (Nat.lt_succ_self n) acc rest

theorem udAux_replicate_zero :
    ∀ k l, udAux 0 (List.replicate k '0' ++ l) = udAux 0 l := by
  intro k
  induction k with
  | zero => intro l; rw [List.replicate_zero, List.nil_append]
  | succ j ih =>
    intro l
    rw [List.replicate_succ, List.cons_append,
      udAux_cons_digit (show isDig '0' = true by decide)]
    have : (0 : Nat) * 10 + digitVal '0' = 0 := by decide
    rw [this, ih]

/-! ## `pyInt` on zero-padded digit strings -/

theorem parseUD_eq_udAux {c : Char} (h : isDig c = true) (cs : List Char) :
    parseUD (c :: cs) = udAux 0 (c :: cs) := by
  rw [parseUD, if_pos h, udAux_cons_digit h, Nat.zero_mul, Nat.zero_add]

theorem stripLeft_digits {l : List Char} (h : ∀ c ∈ l, isDig c = true) :
    stripLeft l = l := by
  cases l with
  | nil => rfl
  | cons c cs =>
    rw [stripLeft,
      if_neg (by simp [isPySpace_eq_false_of_isDig (h c (List.mem_cons_self c cs))])]

theorem pyStrip_digits {l : List Char} (h : ∀ c ∈ l, isDig c = true) :
    pyStrip l = l := by
  rw [pyStrip, stripLeft_digits h,
    stripLeft_digits (fun c hc => h c (List.mem_reverse.mp hc)),
    List.reverse_reverse]

theorem pyInt_digits {c : Char} {cs : List Char}
    (h : ∀ d ∈ c :: cs, isDig d = true) :
    pyInt (c :: cs) = (udAux 0 (c :: cs)).map (fun n => (n : Int)) := by
  have hc : isDig c = true := h c (List.mem_cons_self c cs)
  rw [pyInt, pyStrip_digits h]
  show (if c = '+' then (parseUD cs).map (fun n => (n : Int))
    else if c = '-' then (parseUD cs).map (fun n => -(n : Int))
    else (parseUD (c :: cs)).map (fun n => (n : Int))) = _
  rw [if_neg (ne_of_isDig hc (by decide)), if_neg (ne_of_isDig hc (by decide)),
    parseUD_eq_udAux hc]

theorem natDigits_ne_nil (n : Nat) : natDigits n ≠ [] :=
  natDigitsAux_ne_nil (Nat.lt_succ_self n)

theorem padZero_natDigits_all_digits {w n : Nat} {c : Char}
    (hc : c ∈ padZero w (natDigits n)) : isDig c = true := by
  rw [padZero, List.mem_append] at hc
  rcases hc with hc | hc
  · rw [List.eq_of_mem_replicate hc]; decide
  · exact natDigits_all_digits hc

theorem pyInt_padZero_natDigits (w n : Nat) :
    pyInt (padZero w (natDigits n)) = some (n : Int) := by
  have hne : padZero w (natDigits n) ≠ [] := by
    rw [padZero]
    intro he
    exact natDigits_ne_nil n (List.append_eq_nil.mp he).2
  obtain ⟨c, cs, hcons⟩ := List.exists_cons_of_ne_nil hne
  rw [hcons, pyInt_digits (fun d hd => padZero_natDigits_all_digits (hcons ▸ hd)),
    ← hcons, padZero, udAux_replicate_zero]
  have hval := udAux_natDigits n 0 []
  rw [List.append_nil] at hval
  rw [hval, Nat.zero_mul, Nat.zero_add]
  rfl

/-! ## `splitOnChar` on separator-free segments -/

theorem splitOnChar_of_not_mem {sep : Char} :
    ∀ {l : List Char}, sep ∉ l → splitOnChar sep l = [l] := by
  intro l
  induction l with
  | nil => intro _; rfl
  | cons c cs ih =>
    intro h
    have hc : ¬ c = sep := fun e => h (by rw [e]; exact List.mem_cons_self _ _)
    have hcs : sep ∉ cs := fun x => h (List.mem_cons_of_mem _ x)
    rw [splitOnChar, if_neg hc, ih hcs]

theorem splitOnChar_append {sep : Char} :
    ∀ (l1 l2 : List Char), sep ∉ l1 →
      splitOnChar sep (l1 ++ sep :: l2) = l1 :: splitOnChar sep l2 := by
  intro l1
  induction l1 with
  | nil =>
    intro l2 _
    rw [List.nil_append, splitOnChar, if_pos rfl]
  | cons c cs ih =>
    intro l2 h
    have hc : ¬ c = sep := fun e => h (by rw [e]; exact List.mem_cons_self _ _)
    have hcs : sep ∉ cs := fun x => h (List.mem_cons_of_mem _ x)
    rw [List.cons_append, splitOnChar, if_neg hc, ih l2 hcs]

/-! ## Parsing canonical timestamp strings -/

theorem pyInt_fmt2 (n : Nat) : pyInt (fmt2 n) = some (n : Int) :=
  pyInt_padZero_natDigits 2 n

theorem pyInt_fmt3 (n : Nat) : pyInt (fmt3 n) = some (n : Int) :=
  pyInt_padZero_natDigits 3 n

theorem not_mem_padZero_natDigits {d : Char} (hd : isDig d = false)
    (w n : Nat) : d ∉ padZero w (natDigits n) := fun hmem =>
  Bool.false_ne_true (hd ▸ padZero_natDigits_all_digits hmem)

theorem colon_not_mem_fmt2 (n : Nat) : ':' ∉ fmt2 n :=
  not_mem_padZero_natDigits (by decide) 2 n

theorem comma_not_mem_fmt2 (n : Nat) : ',' ∉ fmt2 n :=
  not_mem_padZero_natDigits (by decide) 2 n

theorem colon_not_mem_fmt3 (n : Nat) : ':' ∉ fmt3 n :=
  not_mem_padZero_natDigits (by decide) 3 n

theorem splitColon_mkTimestamp (h m s ms : Nat) :
    splitOnChar ':' (mkTimestamp h m s ms).data =
      [fmt2 h, fmt2 m, fmt2 s ++ ',' :: fmt3 ms] := by
  have hdata : (mkTimestamp h m s ms).data
      = fmt2 h ++ ':' :: (fmt2 m ++ ':' :: (fmt2 s ++ ',' :: fmt3 ms)) := by
    show ((fmt2 h ++ ':' :: fmt2 m) ++ ':' :: fmt2 s) ++ ',' :: fmt3 ms = _
    simp only [List.append_assoc, List.cons_append]
  rw [hdata, splitOnChar_append _ _ (colon_not_mem_fmt2 h),
    splitOnChar_append _ _ (colon_not_mem_fmt2 m),
    splitOnChar_of_not_mem]
  intro hmem
  rw [List.mem_append, List.mem_cons] at hmem
  rcases hmem with hmem | hmem | hmem
  · exact colon_not_mem_fmt2 s hmem
  · exact absurd hmem (by decide)
  · exact colon_not_mem_fmt3 ms hmem

theorem splitComma_tail (s ms : Nat) :
    splitOnChar ',' (fmt2 s ++ ',' :: fmt3 ms) = [fmt2 s, fmt3 ms] := by
  rw [splitOnChar_append _ _ (comma_not_mem_fmt2 s), splitOnChar_of_not_mem]
  exact not_mem_padZero_natDigits (by decide) 3 ms

theorem timestamp_to_ms_mkTimestamp (h m s ms : Nat) :
    timestamp_to_ms (mkTimestamp h m s ms) =
      some (((h * 3600 + m * 60 + s) * 1000 + ms : Nat) : Int) := by
  simp only [timestamp_to_ms, splitColon_mkTimestamp, splitComma_tail,
    pyInt_fmt2, pyInt_fmt3]
  push_cast
  ring_nf

/-! ## Formatting -/

theorem ms_to_timestamp_eq_mkTimestamp (x : Nat) :
    ms_to_timestamp x =
      mkTimestamp (x / 1000 / 60 / 60) (x / 1000 / 60 % 60)
        (x / 1000 % 60) (x % 1000) := rfl

/-- C5.  For every non-negative integer `x`,
`timestamp_to_ms (ms_to_timestamp x) = x`: formatting any millisecond
count and parsing it back returns the same value. -/
theorem parse_format_roundtrip (x : Nat) :
    timestamp_to_ms (ms_to_timestamp x) = some (x : Int) := by
  rw [ms_to_timestamp_eq_mkTimestamp, timestamp_to_ms_mkTimestamp]
  congr 1
  omega

theorem natDigitsAux_one {fuel v : Nat} (hf : v < fuel) (hv : v < 10) :
    natDigitsAux fuel v = [digitChar v] := by
  match fuel with
  | f + 1 => rw [natDigitsAux, if_pos hv]

theorem natDigitsAux_two {fuel v : Nat} (hf : v < fuel) (h10 : 10 ≤ v)
    (h100 : v < 100) :
    natDigitsAux fuel v = [digitChar (v / 10), digitChar (v % 10)] := by
  match fuel with
  | f + 1 =>
    rw [natDigitsAux, if_neg (by omega),
      natDigitsAux_one (show v / 10 < f by omega) (by omega)]
    rfl

theorem natDigitsAux_three {fuel v : Nat} (hf : v < fuel) (h100 : 100 ≤ v)
    (h1000 : v < 1000) :
    natDigitsAux fuel v =
      [digitChar (v / 100), digitChar (v / 10 % 10), digitChar (v % 10)] := by
  match fuel with
  | f + 1 =>
    rw [natDigitsAux, if_neg (by omega),
      natDigitsAux_two (show v / 10 < f by omega) (by omega) (by omega)]
    have h1 : v / 10 / 10 = v / 100 := by omega
    rw [h1]
    rfl

theorem fmt2_eq {n : Nat} (h : n < 100) :
    fmt2 n = [digitChar (n / 10), digitChar (n % 10)] := by
  by_cases h10 : n < 10
  · rw [fmt2, natDigits, natDigitsAux_one (Nat.lt_succ_self n) h10]
    have h1 : n / 10 = 0 := by omega
    have h2 : n % 10 = n := by omega
    rw [h1, h2]
    rfl
  · rw [fmt2, natDigits, natDigitsAux_two (Nat.lt_succ_self n) (by omega) h]
    rfl

theorem fmt3_eq {n : Nat} (h : n < 1000) :
    fmt3 n = [digitChar (n / 100), digitChar (n / 10 % 10), digitChar (n % 10)] := by
  by_cases h10 : n < 10
  · rw [fmt3, natDigits, natDigitsAux_one (Nat.lt_succ_self n) h10]
    have h1 : n / 100 = 0 := by omega
    have h2 : n / 10 % 10 = 0 := by omega
    have h3 : n % 10 = n := by omega
    rw [h1, h2, h3]
    rfl
  · by_cases h100 : n < 100
    · rw [fmt3, natDigits, natDigitsAux_two (Nat.lt_succ_self n) (by omega) h100]
      have h1 : n / 100 = 0 := by omega
      have h2 : n / 10 % 10 = n / 10 := by omega
      rw [h1, h2]
      rfl
    · rw [fmt3, natDigits,
        natDigitsAux_three (Nat.lt_succ_self n) (by omega) h]
      rfl

theorem validTimestampStr_mkTimestamp {h m s ms : Nat} (hh : h < 100)
    (hm : m < 60) (hs : s < 60) (hms : ms < 1000) :
    validTimestampStr (mkTimestamp h m s ms) = true := by
  have hdata : (mkTimestamp h m s ms).data
      = ((fmt2 h ++ ':' :: fmt2 m) ++ ':' :: fmt2 s) ++ ',' :: fmt3 ms := rfl
  rw [validTimestampStr, hdata, fmt2_eq hh, fmt2_eq (show m < 100 by omega),
    fmt2_eq (show s < 100 by omega), fmt3_eq hms]
  simp only [List.cons_append, List.nil_append]
  simp only [isDig_digitChar (show h / 10 < 10 by omega),
    isDig_digitChar (show h % 10 < 10 by omega),
    isDig_digitChar (show m / 10 < 10 by omega),
    isDig_digitChar (show m % 10 < 10 by omega),
    isDig_digitChar (show s / 10 < 10 by omega),
    isDig_digitChar (show s % 10 < 10 by omega),
    isDig_digitChar (show ms / 100 < 10 by omega),
    isDig_digitChar (show ms / 10 % 10 < 10 by omega),
    isDig_digitChar (show ms % 10 < 10 by omega),
    digitVal_digitChar (show m / 10 < 10 by omega),
    digitVal_digitChar (show m % 10 < 10 by omega),
    digitVal_digitChar (show s / 10 < 10 by omega),
    digitVal_digitChar (show s % 10 < 10 by omega)]
  simp only [beq_self_eq_true, Bool.true_and, Bool.and_true]
  rw [decide_eq_true (show 10 * (m / 10) + m % 10 < 60 by omega),
    decide_eq_true (show 10 * (s / 10) + s % 10 < 60 by omega)]
  rfl

/-- C4.  For every valid `HH:MM:SS,mmm` timestamp string (two zero-padded
digits for hours, minutes and seconds, minutes and seconds below 60,
three digits for milliseconds — exactly the strings
`mkTimestamp h m s ms` with `h < 100`, `m < 60`, `s < 60`, `ms < 1000`),
parsing yields the total millisecond value and formatting that value
reproduces the original string:
`formatTimestamp (parseTimestamp s) = s`. -/
theorem format_parse_roundtrip (h m s ms : Nat) (hh : h < 100) (hm : m < 60)
    (hs : s < 60) (hms : ms < 1000) :
    validTimestampStr (mkTimestamp h m s ms) = true ∧
    timestamp_to_ms (mkTimestamp h m s ms) =
      some (((h * 3600 + m * 60 + s) * 1000 + ms : Nat) : Int) ∧
    ms_to_timestamp ((h * 3600 + m * 60 + s) * 1000 + ms) =
      mkTimestamp h m s ms := by
  refine ⟨validTimestampStr_mkTimestamp hh hm hs hms,
    timestamp_to_ms_mkTimestamp h m s ms, ?_⟩
  rw [ms_to_timestamp_eq_mkTimestamp]
  have e1 : ((h * 3600 + m * 60 + s) * 1000 + ms) / 1000 / 60 / 60 = h := by
    omega
  have e2 : ((h * 3600 + m * 60 + s) * 1000 + ms) / 1000 / 60 % 60 = m := by
    omega
  have e3 : ((h * 3600 + m * 60 + s) * 1000 + ms) / 1000 % 60 = s := by
    omega
  have e4 : ((h * 3600 + m * 60 + s) * 1000 + ms) % 1000 = ms := by
    omega
  rw [e1, e2, e3, e4]

/-- Witness for C4 at the concrete valid string `"12:34:56,789"`. -/
theorem format_parse_roundtrip_w :
    mkTimestamp 12 34 56 789 = "12:34:56,789" ∧
    (validTimestampStr (mkTimestamp 12 34 56 789) = true ∧
     timestamp_to_ms (mkTimestamp 12 34 56 789) =
       some (((12 * 3600 + 34 * 60 + 56) * 1000 + 789 : Nat) : Int) ∧
     ms_to_timestamp ((12 * 3600 + 34 * 60 + 56) * 1000 + 789) =
       mkTimestamp 12 34 56 789) :=
  ⟨rfl, format_parse_roundtrip 12 34 56 789 (by decide) (by decide)
    (by decide) (by decide)⟩

/-- C2.  For every word whose two timestamps parse (to `b` and `e`
milliseconds), the playback window started on entering its browsing state
has start position `max 0 (b - 1000)` and stop threshold `e + 1000`:
a fixed one-second padding on both sides, clipped below at zero. -/
theorem play_window_spec (w : Word) (b e : Int)
    (hb : timestamp_to_ms w.beginTimestamp = some b)
    (he : timestamp_to_ms w.endTimestamp = some e) :
    playStartPos w = some (max 0 (b - 1000)) ∧
    playStopMs w = some (e + 1000) := by
  rw [playStartPos, playStopMs, Word.begin_ms, Word.end_ms, hb, he]
  exact ⟨rfl, rfl⟩

/-- Witness for C2 on the spec §8 scenario word (`begin` 5000 ms, `end`
6000 ms): window `(4000, 7000)`. -/
theorem play_window_spec_w :
    playStartPos wCat = some (max 0 ((5000 : Int) - 1000)) ∧
    playStopMs wCat = some ((6000 : Int) + 1000) :=
  play_window_spec wCat 5000 6000 (by rfl) (by rfl)

/-! ## Parse failure characterization -/

theorem parse_none_iff (t : String) :
    timestamp_to_ms t = none ↔
      (tsFieldsSplit t.data = none ∨
       ∃ f1 f2 g1 g2, tsFieldsSplit t.data = some (f1, f2, g1, g2) ∧
         (pyInt f1 = none ∨ pyInt f2 = none ∨ pyInt g1 = none ∨
          pyInt g2 = none)) := by
  rcases h3 : splitOnChar ':' t.data with
    _ | ⟨f1, _ | ⟨f2, _ | ⟨rest, _ | ⟨f4, tail⟩⟩⟩⟩ <;>
      simp only [timestamp_to_ms, tsFieldsSplit, h3] <;> try simp
  rcases h2 : splitOnChar ',' rest with _ | ⟨g1, _ | ⟨g2, _ | ⟨g3, tail2⟩⟩⟩ <;>
    simp only [h2] <;> try simp
  constructor
  · intro hnone
    rcases hp1 : pyInt f1 with _ | v1 <;> rcases hp2 : pyInt f2 with _ | v2 <;>
      rcases hp3 : pyInt g1 with _ | v3 <;> rcases hp4 : pyInt g2 with _ | v4 <;>
        simp_all <;>
        exact ⟨f1, f2, g1, g2, ⟨rfl, rfl, rfl, rfl⟩,
          by simp [hp1, hp2, hp3, hp4]⟩
  · rintro ⟨x1, x2, x3, x4, ⟨rfl, rfl, rfl, rfl⟩, hd⟩
    rcases hp1 : pyInt f1 with _ | v1 <;> rcases hp2 : pyInt f2 with _ | v2 <;>
      rcases hp3 : pyInt g1 with _ | v3 <;> rcases hp4 : pyInt g2 with _ | v4 <;>
        simp_all

/-- C6 counterexample: `"0:0:0,0"` does not match the exact
`HH:MM:SS,mmm` shape (fields are not two/three digits wide), yet
`timestamp_to_ms` succeeds on it and returns `0` — so the parser does
not fail exactly on the strings outside the exact shape. -/
theorem parse_shape_cex :
    timestamp_to_ms "0:0:0,0" = some 0 ∧
    validTimestampStr "0:0:0,0" = false :=
  ⟨rfl, rfl⟩

/-- C6 amended.  `parseTimestamp` fails exactly when the `:`/`,` field
structure is wrong or one of the four fields is rejected by integer
parsing; it is more lenient than the exact `HH:MM:SS,mmm` shape (it also
accepts unpadded, signed or blank-surrounded numeric fields).  Every
string of the exact shape parses to its total millisecond value, and on
such strings larger (lexicographically/chronologically greater)
timestamps map to larger millisecond values. -/
theorem parse_spec_amended :
    (∀ h m s ms : Nat, h < 100 → m < 60 → s < 60 → ms < 1000 →
      timestamp_to_ms (mkTimestamp h m s ms) =
        some (((h * 3600 + m * 60 + s) * 1000 + ms : Nat) : Int)) ∧
    (∀ h1 m1 s1 ms1 h2 m2 s2 ms2 : Nat,
      m1 < 60 → s1 < 60 → ms1 < 1000 → m2 < 60 → s2 < 60 → ms2 < 1000 →
      (h1 < h2 ∨ (h1 = h2 ∧ (m1 < m2 ∨ (m1 = m2 ∧
        (s1 < s2 ∨ (s1 = s2 ∧ ms1 < ms2)))))) →
      ∃ v1 v2 : Int,
        timestamp_to_ms (mkTimestamp h1 m1 s1 ms1) = some v1 ∧
        timestamp_to_ms (mkTimestamp h2 m2 s2 ms2) = some v2 ∧ v1 < v2) ∧
    (∀ t : String, timestamp_to_ms t = none ↔
      (tsFieldsSplit t.data = none ∨
       ∃ f1 f2 g1 g2, tsFieldsSplit t.data = some (f1, f2, g1, g2) ∧
         (pyInt f1 = none ∨ pyInt f2 = none ∨ pyInt g1 = none ∨
          pyInt g2 = none))) := by
  refine ⟨?_, ?_, parse_none_iff⟩
  · intro h m s ms _ _ _ _
    exact timestamp_to_ms_mkTimestamp h m s ms
  · intro h1 m1 s1 ms1 h2 m2 s2 ms2 hm1 hs1 hms1 hm2 hs2 hms2 hlex
    refine ⟨(((h1 * 3600 + m1 * 60 + s1) * 1000 + ms1 : Nat) : Int),
      (((h2 * 3600 + m2 * 60 + s2) * 1000 + ms2 : Nat) : Int),
      timestamp_to_ms_mkTimestamp h1 m1 s1 ms1,
      timestamp_to_ms_mkTimestamp h2 m2 s2 ms2, ?_⟩
    have : (h1 * 3600 + m1 * 60 + s1) * 1000 + ms1 <
        (h2 * 3600 + m2 * 60 + s2) * 1000 + ms2 := by
      rcases hlex with hl | ⟨rfl, hl | ⟨rfl, hl | ⟨rfl, hl⟩⟩⟩ <;> omega
    exact_mod_cast this

/-- Witness for the amended C6: the exact-shape string `"12:34:56,789"`
parses to 45296789 ms, `"12:34:56,789"` is chronologically before
`"12:34:57,000"` and parses below it, and the malformed string
`"00:00:00.000"` (no comma) fails. -/
theorem parse_spec_amended_w :
    timestamp_to_ms (mkTimestamp 12 34 56 789) =
      some (((12 * 3600 + 34 * 60 + 56) * 1000 + 789 : Nat) : Int) ∧
    (∃ v1 v2 : Int,
      timestamp_to_ms (mkTimestamp 12 34 56 789) = some v1 ∧
      timestamp_to_ms (mkTimestamp 12 34 57 0) = some v2 ∧ v1 < v2) ∧
    (timestamp_to_ms "00:00:00.000" = none ↔
      (tsFieldsSplit "00:00:00.000".data = none ∨
       ∃ f1 f2 g1 g2,
         tsFieldsSplit "00:00:00.000".data = some (f1, f2, g1, g2) ∧
         (pyInt f1 = none ∨ pyInt f2 = none ∨ pyInt g1 = none ∨
          pyInt g2 = none))) :=
  ⟨parse_spec_amended.1 12 34 56 789 (by decide) (by decide) (by decide)
      (by decide),
   parse_spec_amended.2.1 12 34 56 789 12 34 57 0 (by decide) (by decide)
      (by decide) (by decide) (by decide) (by decide)
      (Or.inr ⟨rfl, Or.inr ⟨rfl, Or.inl (by decide)⟩⟩),
   parse_spec_amended.2.2 "00:00:00.000"⟩

/-! ## Session state machine -/

/-- C7.  In `Browsing(i)` with `N ≥ 1` words: `next()` moves to
`Browsing(i+1)` when `i < N-1`, and when `i = N-1` it runs `finish`
(closing the session and exporting); nothing else changes. -/
theorem next_word_spec (s : Session) :
    (s.current + 1 < s.words.length →
      s.next_word = { s with current := s.current + 1 }) ∧
    (s.current + 1 = s.words.length →
      s.next_word = { s with
        closed := true,
        exports := s.exports ++ [filterNotKnown s.words s.responses] }) := by
  constructor
  · intro h
    rw [Session.next_word, if_neg (by omega), if_pos (by omega)]
  · intro h
    rw [Session.next_word, if_pos (by omega)]
    rfl

/-- Witness for C7 on the three-word session: `next()` at index 0 of a
fresh session moves to index 1, and `next()` at the last index of
`sThree` closes and exports. -/
theorem next_word_spec_w :
    (initSession [wCat, wDog, wOwl]).next_word =
      { initSession [wCat, wDog, wOwl] with current := 1 } ∧
    sThree.next_word =
      { sThree with
        closed := true,
        exports := sThree.exports ++
          [filterNotKnown sThree.words sThree.responses] } :=
  ⟨(next_word_spec (initSession [wCat, wDog, wOwl])).1 (by decide),
   (next_word_spec sThree).2 (by decide)⟩

/-- C8.  In `Browsing(i)`: `prev()` moves to `Browsing(i-1)` when
`i > 0` and is a complete no-op when `i = 0`. -/
theorem prev_word_spec (s : Session) :
    (0 < s.current → s.prev_word = { s with current := s.current - 1 }) ∧
    (s.current = 0 → s.prev_word = s) := by
  constructor
  · intro h
    rw [Session.prev_word, if_pos h]
  · intro h
    rw [Session.prev_word, if_neg (by omega)]

/-- Witness for C8: `prev()` from index 2 of `sThree` reaches index 1,
and `prev()` on a fresh (index-0) session changes nothing. -/
theorem prev_word_spec_w :
    sThree.prev_word = { sThree with current := 1 } ∧
    sOne.prev_word = sOne :=
  ⟨(prev_word_spec sThree).1 (by decide), (prev_word_spec sOne).2 rfl⟩

/-- C9.  `mark(known)` sets `responses[i]` at the current index only and
never moves the index; a later mark at the same index overwrites the
earlier one; `prev()`/`next()` never touch the responses array, so a
mark survives navigating away and back. -/
theorem mark_frame_spec (s : Session) :
    s.mark_known.current = s.current ∧
    s.mark_unknown.current = s.current ∧
    s.mark_known.responses = s.responses.set s.current (some true) ∧
    s.mark_unknown.responses = s.responses.set s.current (some false) ∧
    (∀ j, j ≠ s.current →
      s.mark_known.responses.getD j none = s.responses.getD j none) ∧
    (∀ j, j ≠ s.current →
      s.mark_unknown.responses.getD j none = s.responses.getD j none) ∧
    s.mark_known.mark_unknown.responses =
      s.responses.set s.current (some false) ∧
    s.mark_unknown.mark_known.responses =
      s.responses.set s.current (some true) ∧
    s.prev_word.responses = s.responses ∧
    s.next_word.responses = s.responses ∧
    s.mark_known.next_word.prev_word.responses = s.mark_known.responses := by
  have hprev : ∀ t : Session, t.prev_word.responses = t.responses := by
    intro t
    rw [Session.prev_word]
    split <;> rfl
  have hnext : ∀ t : Session, t.next_word.responses = t.responses := by
    intro t
    rw [Session.next_word]
    split
    · rfl
    · split <;> rfl
  have hgetD : ∀ (j : Nat) (b : Bool), j ≠ s.current →
      (s.responses.set s.current (some b)).getD j none =
        s.responses.getD j none := by
    intro j b hj
    rw [List.getD_eq_getElem?_getD, List.getD_eq_getElem?_getD,
      List.getElem?_set_ne (fun e => hj e.symm)]
  refine ⟨rfl, rfl, rfl, rfl, fun j hj => hgetD j true hj,
    fun j hj => hgetD j false hj, ?_, ?_, hprev s, hnext s, ?_⟩
  · show (s.responses.set s.current (some true)).set s.current (some false) = _
    exact List.set_set _ _ _ _
  · show (s.responses.set s.current (some false)).set s.current (some true) = _
    exact List.set_set _ _ _ _
  · rw [hprev, hnext]

/-- Witness for C9 on `sOne` (current index 0) at the other index 1. -/
theorem mark_frame_spec_w :
    sOne.mark_known.current = sOne.current ∧
    sOne.mark_known.responses =
      sOne.responses.set sOne.current (some true) ∧
    sOne.mark_known.responses.getD 1 none = sOne.responses.getD 1 none ∧
    sOne.mark_known.mark_unknown.responses =
      sOne.responses.set sOne.current (some false) ∧
    sOne.prev_word.responses = sOne.responses ∧
    sOne.mark_known.next_word.prev_word.responses =
      sOne.mark_known.responses := by
  have h := mark_frame_spec sOne
  exact ⟨h.1, h.2.2.1, h.2.2.2.2.1 1 (by decide), h.2.2.2.2.2.2.1,
    h.2.2.2.2.2.2.2.2.1, h.2.2.2.2.2.2.2.2.2.2⟩

/-- C3.  Entering `Finished` (calling `next()` at the last index) closes
the session after appending exactly one export; a closed session accepts
no further events at all — any sequence of subsequent `next`/`prev`/`mark`
events leaves the state (exports included) unchanged, so the export runs
exactly once per session. -/
theorem finished_terminal (s : Session) (h1 : s.closed = false)
    (h2 : s.current + 1 = s.words.length) :
    (step s .next).closed = true ∧
    (step s .next).exports =
      s.exports ++ [filterNotKnown s.words s.responses] ∧
    ∀ es : List Ev, es.foldl step (step s .next) = step s .next := by
  have hstep : step s .next = s.finish := by
    show (if s.closed = true then s else s.next_word) = s.finish
    rw [if_neg (by rw [h1]; exact Bool.false_ne_true)]
    rw [Session.next_word, if_pos (by omega)]
  have hfix : ∀ (t : Session), t.closed = true →
      ∀ es : List Ev, es.foldl step t = t := by
    intro t ht es
    induction es with
    | nil => rfl
    | cons e es ih =>
      rw [List.foldl_cons, step.eq_def, if_pos ht]
      exact ih
  exact ⟨by rw [hstep]; rfl, by rw [hstep]; rfl,
    hfix (step s .next) (by rw [hstep]; rfl)⟩

/-- Witness for C3 on the one-word session of the spec §8 scenario:
`next()` from index 0 (= last index) closes and exports the single
(unset) word once; a subsequent burst of events changes nothing. -/
theorem finished_terminal_w :
    (step sOne .next).closed = true ∧
    (step sOne .next).exports =
      sOne.exports ++ [filterNotKnown sOne.words sOne.responses] ∧
    [Ev.next, Ev.prev, Ev.markKnown, Ev.markUnknown, Ev.next].foldl step
      (step sOne .next) = step sOne .next := by
  have h := finished_terminal sOne rfl rfl
  exact ⟨h.1, h.2.1, h.2.2 [Ev.next, Ev.prev, Ev.markKnown, Ev.markUnknown,
    Ev.next]⟩

/-! ## Export characterization -/

theorem bne_some_true_eq_pyNot (r : Option Bool) :
    (r != some true) = pyNot r := by
  rcases r with _ | b
  · rfl
  · cases b <;> rfl

theorem filterNotKnown_sublist :
    ∀ (ws : List Word) (rs : List (Option Bool)),
      (filterNotKnown ws rs).Sublist ws := by
  intro ws
  induction ws with
  | nil => intro rs; exact List.Sublist.refl []
  | cons w ws ih =>
    intro rs
    cases rs with
    | nil => exact List.nil_sublist _
    | cons r rs =>
      rw [filterNotKnown]
      by_cases hr : pyNot r = true
      · rw [if_pos hr]
        exact List.Sublist.cons₂ _ (ih rs)
      · rw [if_neg hr]
        exact List.Sublist.cons _ (ih rs)

theorem filterNotKnown_eq :
    ∀ (ws : List Word) (rs : List (Option Bool)), ws.length = rs.length →
      filterNotKnown ws rs =
        ((List.range ws.length).filter
          (fun i => rs.getD i none != some true)).map
          (fun i => ws.getD i default) := by
  intro ws
  induction ws with
  | nil => intro rs _; rfl
  | cons w ws ih =>
    intro rs h
    cases rs with
    | nil => simp at h
    | cons r rs =>
      have hlen : ws.length = rs.length := by simpa using h
      rw [filterNotKnown]
      by_cases hr : pyNot r = true
      · rw [if_pos hr, ih rs hlen]
        simp [List.range_succ_eq_map, List.filter_cons,
          bne_some_true_eq_pyNot, hr, List.filter_map, List.map_map,
          Function.comp_def]
      · rw [if_neg hr, ih rs hlen]
        simp [List.range_succ_eq_map, List.filter_cons,
          bne_some_true_eq_pyNot, hr, List.filter_map, List.map_map,
          Function.comp_def]

/-- C1.  On entering `Finished`, `finish` appends exactly one export:
the list of the words at every index whose response is not `known`
(i.e. marked `unknown` or left unset), in the original input order
(the export is a sublist of the word list). -/
theorem export_spec (s : Session) (h : s.words.length = s.responses.length) :
    s.finish.exports = s.exports ++ [filterNotKnown s.words s.responses] ∧
    filterNotKnown s.words s.responses =
      ((List.range s.words.length).filter
        (fun i => s.responses.getD i none != some true)).map
        (fun i => s.words.getD i default) ∧
    (filterNotKnown s.words s.responses).Sublist s.words :=
  ⟨rfl, filterNotKnown_eq s.words s.responses h,
    filterNotKnown_sublist s.words s.responses⟩

/-- Witness for C1 on the §8 scenario session `sThree` (index 1 marked
known, index 2 marked unknown, index 0 unset): the export is exactly
the words at indices 0 and 2, in order. -/
theorem export_spec_w :
    filterNotKnown sThree.words sThree.responses = [wCat, wOwl] ∧
    (sThree.finish.exports =
      sThree.exports ++ [filterNotKnown sThree.words sThree.responses] ∧
    filterNotKnown sThree.words sThree.responses =
      ((List.range sThree.words.length).filter
        (fun i => sThree.responses.getD i none != some true)).map
        (fun i => sThree.words.getD i default) ∧
    (filterNotKnown sThree.words sThree.responses).Sublist sThree.words) :=
  ⟨rfl, export_spec sThree rfl⟩

/-! ## Loading -/

theorem mkWords_none_of_mem :
    ∀ (data : List (List (String × String))) (r : List (String × String)),
      r ∈ data → mkWord r = none → mkWords data = none := by
  intro data
  induction data with
  | nil => intro r hr; exact absurd hr (List.not_mem_nil r)
  | cons x xs ih =>
    intro r hr hnone
    rcases List.mem_cons.mp hr with rfl | hr'
    · simp [mkWords, hnone]
    · cases hfx : mkWord x with
      | none => simp [mkWords, hfx]
      | some y => simp [mkWords, hfx, ih r hr' hnone]

/-- C10.  A record carrying any key beyond the seven `Word` fields makes
the whole load fail (`Word(**d)` raises `TypeError` on an unexpected
keyword, the comprehension aborts, the exception is caught): no session
is created and the pre-load state is unchanged. -/
theorem extra_field_rejected (st : UploadState)
    (data : List (List (String × String))) (r : List (String × String))
    (p : String × String) (hr : r ∈ data) (hp : p ∈ r)
    (hk : fieldNames.contains p.1 = false) :
    mkWords data = none ∧ start st data = st := by
  have hword : mkWord r = none := by
    rw [mkWord, if_neg]
    intro hall
    rw [List.all_eq_true] at hall
    have hcontra := hall p hp
    rw [hk] at hcontra
    exact Bool.false_ne_true hcontra
  have hnone : mkWords data = none :=
    mkWords_none_of_mem data r hr hword
  refine ⟨hnone, ?_⟩
  rw [start, hnone]

/-- Witness for C10: a record with the seven fields plus an extra
`"note"` key is rejected and the (sessionless) upload state is kept. -/
theorem extra_field_rejected_w :
    mkWords [recExtra] = none ∧
    start ⟨none⟩ [recExtra] = ⟨none⟩ :=
  extra_field_rejected ⟨none⟩ [recExtra] recExtra ("note", "extra")
    (List.mem_singleton.mpr rfl) (by decide) (by decide)
